import Mathlib

/-!
Verification of the incremental novelty-detection and personalized-ranking
pipeline of `daily_academic_report.py` (academic-journal-watcher).

The Python source is shallowly embedded:
* oracle text processing (`score_item_with_deepseek`, `translate_text_to_zh`)
  operates on `List Char`, with the oracle reply modelled as
  `Option (List Char)` (`none` = the underlying call raised an exception);
* the persisted seen-set store (`data/seen_items.csv`) is modelled as a
  `SeenStore`: absent file, unreadable file, or a parsed CSV table
  (column names plus rows of optional cells, a `none` cell being pandas NaN;
  `astype(str)` renders a NaN cell as the string "nan").  The CSV
  write/read round trip is modelled as the identity on such tables, which is
  exact for the cells this program produces (identity keys always contain
  the two-pipe separator, so they are never re-parsed as numbers or NaN);
* `pandas.concat` of the old table with the freshly built one-column
  `key` table aligns columns by name (`mergeTable`), and
  `drop_duplicates` keeps the first occurrence of each full row
  (`dropDupsFirst`);
* `DataFrame.sort_values(by, ascending=False)` is modelled following
  pandas `nargsort`: reverse, stable ascending sort, reverse again, with
  NaN keys appended at the end in input order (`na_position="last"`).
  The stable ascending kernel is exact for frames inside numpy's
  insertion-sort regime; only length and membership of the result are
  used by the theorems below.
-/

namespace AcademicWatcher

/-! ### Text helpers (Python `str.strip`, `re.findall("\\d+", s)`) -/

/-- Whitespace as recognised by Python `str.strip()` (ASCII fragment). -/
def isWS (c : Char) : Bool :=
  c = ' ' || c = '\t' || c = '\n' || c = '\r'

/-- Python `s.strip()`: drop leading and trailing whitespace. -/
def stripL (l : List Char) : List Char :=
  ((l.dropWhile isWS).reverse.dropWhile isWS).reverse

/-- The first maximal run of decimal digits of a string:
`re.findall("\\d+", s)[0]` when it exists (`re.findall` returns the
maximal digit runs in order). -/
def firstDigitRun : List Char → Option (List Char)
  | [] => none
  | c :: cs =>
    if c.isDigit then some (c :: cs.takeWhile Char.isDigit)
    else firstDigitRun cs

/-- Numeric value of a digit string, as Python `float(digits)` reads it
(the parsed values are nonnegative integers, so `Nat` is exact; values
beyond 100 are clamped away by the caller before any rounding could
matter). -/
def digitsVal (ds : List Char) : Nat :=
  ds.foldl (fun acc c => acc * 10 + (c.toNat - 48)) 0

/-! ### Relevance Oracle Client -/

/-- `score_item_with_deepseek` as a function of the oracle reply for the
item.  `reply = none` models any exception of the underlying call
(network error, missing message content, ...): the `except` branch
returns `0.0`.  Otherwise the code strips the reply, extracts the first
run of decimal digits (no run: `0.0`), and clamps the parsed value with
`max(0.0, min(100.0, score))`. -/
def score_item_with_deepseek (reply : Option (List Char)) : Nat :=
  match reply with
  | none => 0
  | some content =>
    match firstDigitRun (stripL content) with
    | none => 0
    | some ds => max 0 (min 100 (digitsVal ds))

/-- `translate_text_to_zh` as a function of the oracle reply
(`none` = the underlying call raised) and the input text.  The code
first rebinds `text = (text or "").strip()` and returns `""` when the
stripped text is empty; on an exception it returns the (stripped)
`text`; on success it returns the stripped reply. -/
def translate_text_to_zh (reply : Option (List Char)) (text : List Char) :
    List Char :=
  let t := stripL text
  if t = [] then []
  else
    match reply with
    | none => t
    | some r => stripL r

/-! ### Data model: items and identity keys -/

/-- A feed item, restricted to the fields the verified pipeline reads.
`published` and `fetched_at` are post-`pd.to_datetime(errors="coerce")`
timestamps (`none` = NaT).  The remaining textual fields (title,
summary, ...) only flow into the oracle prompt and are absorbed into
the oracle-reply abstraction. -/
structure Item where
  feed_id : String
  link : String
  published : Option Int
  fetched_at : Option Int
deriving Repr, DecidableEq

/-- The identity key of an item: the f-string
key of the source, exact concatenation with a literal
two-pipe separator. -/
def itemKey (it : Item) : String :=
  it.feed_id ++ "||" ++ it.link

/-! ### Seen-Set Store (`data/seen_items.csv`) -/

/-- A parsed CSV table: header plus rows of optional cells
(`none` = pandas NaN, as read back from an empty CSV field). -/
structure Table where
  cols : List String
  rows : List (List (Option String))
deriving Repr, DecidableEq

/-- The possible states of the persisted seen-set file:
missing, present but unreadable by `pd.read_csv`, or a parsed table. -/
inductive SeenStore where
  | absent
  | unreadable
  | stored (t : Table)
deriving Repr, DecidableEq

/-- `astype(str)` on one cell: pandas renders NaN as the string "nan". -/
def cellStr : Option String → String
  | none => "nan"
  | some s => s

/-- The value of the `key` column in one row. -/
def keyCell (cols : List String) (r : List (Option String)) : String :=
  cellStr (r.getD (List.indexOf "key" cols) none)

/-- `load_seen_keys()`: `None` when the file is missing, unreadable, or
lacks the `key` column; otherwise the `key` column rendered via
`astype(str)` (the Python `set` is modelled as this list, used only
through membership). -/
def load_seen_keys : SeenStore → Option (List String)
  | .absent => none
  | .unreadable => none
  | .stored t =>
    if "key" ∈ t.cols then some (t.rows.map (keyCell t.cols)) else none

/-- The key set held by the store, as the pipeline would read it back
(an absent/unreadable/malformed store holds no readable keys). -/
def storeKeys (s : SeenStore) : List String :=
  (load_seen_keys s).getD []

/-- `drop_duplicates()`: keep the first occurrence of each row
(structural formulation: keep the head, deduplicate the tail, then
erase later copies of the head). -/
def dropDupsFirst [DecidableEq α] : List α → List α
  | [] => []
  | x :: xs => x :: (dropDupsFirst xs).filter (fun y => y ≠ x)

/-- One row of the freshly built `DataFrame(dict key := ks)`, re-aligned
by `pd.concat` to the merged column list: the key value under `key`,
NaN elsewhere. -/
def newRowAligned (cols : List String) (k : String) : List (Option String) :=
  cols.map (fun c => if c = "key" then some k else none)

/-- `pd.concat([df_old, df_new], ignore_index=True).drop_duplicates()`
where `df_new` is the one-column `key` table holding `newKeys`
(already deduplicated).  `concat` aligns by column name: the merged
header is the old one, with `key` appended when absent; old rows gain a
NaN `key` cell in that case. -/
def mergeTable (t : Table) (newKeys : List String) : Table :=
  let cols := if "key" ∈ t.cols then t.cols else t.cols ++ ["key"]
  let oldRows :=
    if "key" ∈ t.cols then t.rows else t.rows.map (fun r => r ++ [none])
  ⟨cols, dropDupsFirst (oldRows ++ newKeys.map (newRowAligned cols))⟩

/-- `update_seen_keys(df)`: a no-op on an empty frame (only
`os.makedirs` runs); otherwise it builds the deduplicated one-column
`key` frame from all row keys and either writes it directly (no
existing file), or concatenates it with the existing file
(an unreadable existing file is replaced by the empty `key` frame)
and drops duplicate rows. -/
def update_seen_keys (df : List Item) (s : SeenStore) : SeenStore :=
  if df.isEmpty then s
  else
    let newKeys := dropDupsFirst (df.map itemKey)
    match s with
    | .absent => .stored ⟨["key"], newKeys.map (fun k => [some k])⟩
    | .unreadable => .stored (mergeTable ⟨["key"], []⟩ newKeys)
    | .stored t => .stored (mergeTable t newKeys)

/-- `filter_new_items(recent_df)`: returns `((new_df, is_baseline),`
new store state`)`.  When `load_seen_keys` yields `None` the run is a
baseline: the store is seeded with every key and the whole batch is
returned as new.  Otherwise an empty batch short-circuits without
touching the store, and a non-empty batch is filtered by key membership
and the store updated with all input keys. -/
def filter_new_items (df : List Item) (s : SeenStore) :
    (List Item × Bool) × SeenStore :=
  match load_seen_keys s with
  | none => ((df, true), update_seen_keys df s)
  | some seen =>
    if df.isEmpty then ((df, false), s)
    else
      ((df.filter (fun it => !(seen.contains (itemKey it))), false),
        update_seen_keys df s)

/-- The store-mutating operations of one pipeline run: a call of the
novelty filter, or a direct seen-set update. -/
inductive PipelineOp where
  | classify (batch : List Item)
  | updateOp (batch : List Item)
deriving Repr, DecidableEq

/-- Effect of one pipeline operation on the persisted store. -/
def runOp (op : PipelineOp) (s : SeenStore) : SeenStore :=
  match op with
  | .classify batch => (filter_new_items batch s).2
  | .updateOp batch => update_seen_keys batch s

/-- Effect of a sequence of pipeline operations on the persisted store. -/
def runOps (ops : List PipelineOp) (s : SeenStore) : SeenStore :=
  ops.foldl (fun s op => runOp op s) s

/-- True for every prior state except a readable table lacking the
`key` column, i.e. except the one shape of prior state whose rows
survive a merge without being readable as keys beforehand. -/
def hasUsableKeyCol : SeenStore → Bool
  | .stored t => decide ("key" ∈ t.cols)
  | _ => true

/-- Concrete fixture: the item of the spec scenario with
`feed_id = "A"` and `link = "u1"`. -/
def itemA1 : Item := ⟨"A", "u1", none, none⟩

/-- Concrete fixture: the item with `feed_id = "A"`, `link = "u2"`. -/
def itemA2 : Item := ⟨"A", "u2", none, none⟩

/-- Concrete fixture: a readable persisted file that lacks the `key`
column (one column `foo`, one row): `load_seen_keys` treats it as
absent, but `pd.read_csv` inside `update_seen_keys` still reads it. -/
def badTable : Table := ⟨["foo"], [[some "x"]]⟩

/-- Concrete fixture: a well-formed store already containing the key
of `itemA1`. -/
def seenA1Table : Table := ⟨["key"], [[some "A||u1"]]⟩

/-! ### Ranking Engine (`personalized_recommendations`) -/

/-- The `personalization` block of `settings.yaml`, after the `int()`
coercions of the source (the counts are modelled as naturals, matching
their role as row counts in `DataFrame.head`). -/
structure Settings where
  enable : Bool
  user_profile : List Char
  max_candidates : Nat
  top_n : Nat
  max_workers : Nat
deriving Repr, DecidableEq

/-- The derived recency timestamp:
`ts = tmp["published"].fillna(tmp["fetched_at"])` per row. -/
def tsOf (it : Item) : Option Int :=
  it.published.orElse (fun _ => it.fetched_at)

/-- `DataFrame.sort_values(by, ascending=False)` for a non-NaN key
column, following pandas `nargsort`: reverse the rows, argsort
ascending with a stable kernel, reverse the result (exact in numpy's
insertion-sort regime; the theorems below use only length and
membership of the result). -/
def pandasSortDescBy (key : α → Int) (l : List α) : List α :=
  (List.insertionSort (fun a b => key a ≤ key b) l.reverse).reverse

/-- `tmp.sort_values("_ts", ascending=False)` with the default
`na_position="last"`: NaT rows keep their input order at the end. -/
def sortByTsDesc (l : List Item) : List Item :=
  pandasSortDescBy (fun it => (tsOf it).getD 0)
      (l.filter (fun it => (tsOf it).isSome))
    ++ l.filter (fun it => (tsOf it).isNone)

/-- `personalized_recommendations(recent_df, settings)`.
`clientAvailable` models `get_deepseek_client()` returning a client
(it is `false` when `DEEPSEEK_API_KEY` is unset); `reply` gives the raw
oracle answer for each item (`none` = the call raised), which fixes the
outcome of the concurrent `executor.map` fan-out: scores are collected
in candidate order, one per candidate.  Guards appear in source order:
`enable`, stripped `user_profile`, client, empty frame.  Then rows are
sorted by derived timestamp (most recent first), truncated to
`max_candidates`, scored, sorted by score descending, and truncated to
`top_n`. -/
def personalized_recommendations (clientAvailable : Bool)
    (reply : Item → Option (List Char)) (recent : List Item)
    (st : Settings) : Option (List (Item × Nat)) :=
  if st.enable = false then none
  else if stripL st.user_profile = [] then none
  else if clientAvailable = false then none
  else if recent.isEmpty then none
  else
    some ((pandasSortDescBy (fun p => (p.2 : Int))
      (((sortByTsDesc recent).take st.max_candidates).map
        (fun it => (it, score_item_with_deepseek (reply it))))).take st.top_n)

/-! ### Helper lemmas about `drop_duplicates` -/

theorem mem_dropDupsFirst [DecidableEq α] (x : α) (l : List α) :
    x ∈ dropDupsFirst l ↔ x ∈ l := by
  induction l with
  | nil => simp [dropDupsFirst]
  | cons y ys ih =>
    simp only [dropDupsFirst, List.mem_cons, List.mem_filter, ih]
    by_cases hxy : x = y
    · simp [hxy]
    · simp [hxy]

theorem nodup_dropDupsFirst [DecidableEq α] (l : List α) :
    (dropDupsFirst l).Nodup := by
  induction l with
  | nil => simp [dropDupsFirst]
  | cons y ys ih =>
    rw [dropDupsFirst, List.nodup_cons]
    refine ⟨fun hmem => ?_, List.Nodup.filter _ ih⟩
    have hne := (List.mem_filter.mp hmem).2
    simp at hne

theorem dropDupsFirst_eq_self [DecidableEq α] (l : List α) :
    l.Nodup → dropDupsFirst l = l := by
  induction l with
  | nil => intro _; rfl
  | cons y ys ih =>
    intro h
    rw [List.nodup_cons] at h
    have hf : ys.filter (fun z => z ≠ y) = ys := by
      refine List.filter_eq_self.mpr fun a ha => ?_
      simp only [ne_eq, decide_eq_true_eq]
      exact fun he => h.1 (he ▸ ha)
    rw [dropDupsFirst, ih h.2, hf]

theorem dropDupsFirst_append_singleton_of_not_mem [DecidableEq α] (a : α)
    (l : List α) (h : a ∉ l) :
    dropDupsFirst (l ++ [a]) = dropDupsFirst l ++ [a] := by
  induction l with
  | nil => rfl
  | cons x xs ih =>
    have hax : ¬ a = x := fun he => h (he ▸ List.mem_cons_self x xs)
    have haxs : a ∉ xs := fun hm => h (List.mem_cons_of_mem x hm)
    rw [List.cons_append, dropDupsFirst, dropDupsFirst, ih haxs,
      List.filter_append]
    simp [hax]

theorem dropDupsFirst_append_singleton_of_mem [DecidableEq α] (a : α)
    (l : List α) (h : a ∈ l) :
    dropDupsFirst (l ++ [a]) = dropDupsFirst l := by
  induction l with
  | nil => exact absurd h (List.not_mem_nil a)
  | cons x xs ih =>
    rw [List.cons_append, dropDupsFirst, dropDupsFirst]
    by_cases hax : a ∈ xs
    · rw [ih hax]
    · have hxa : a = x := by
        rcases List.mem_cons.mp h with h1 | h2
        · exact h1
        · exact absurd h2 hax
      subst hxa
      rw [dropDupsFirst_append_singleton_of_not_mem a xs hax,
        List.filter_append]
      simp

theorem dropDupsFirst_append_of_subset [DecidableEq α] (R N : List α)
    (h : ∀ x ∈ N, x ∈ R) : dropDupsFirst (R ++ N) = dropDupsFirst R := by
  induction N using List.reverseRecOn with
  | nil => rw [List.append_nil]
  | append_singleton M a ih =>
    have hM : ∀ x ∈ M, x ∈ R := fun x hx =>
      h x (List.mem_append.mpr (Or.inl hx))
    have ha : a ∈ R :=
      h a (List.mem_append.mpr (Or.inr (List.mem_singleton.mpr rfl)))
    rw [← List.append_assoc,
      dropDupsFirst_append_singleton_of_mem a (R ++ M)
        (List.mem_append.mpr (Or.inl ha))]
    exact ih hM

/-! ### Helper lemmas about the store -/

theorem keyCell_newRowAligned (cols : List String) (k : String)
    (h : "key" ∈ cols) : keyCell cols (newRowAligned cols k) = k := by
  unfold keyCell newRowAligned
  rw [List.getD_eq_getElem?_getD, List.getElem?_map, List.getElem?_indexOf h]
  simp [cellStr]

theorem storeKeys_stored_of_mem (t : Table) (h : "key" ∈ t.cols) :
    storeKeys (.stored t) = t.rows.map (keyCell t.cols) := by
  simp [storeKeys, load_seen_keys, h]

theorem storeKeys_mergeTable (t : Table) (newKeys : List String)
    (h : "key" ∈ t.cols) (k : String) :
    k ∈ storeKeys (.stored (mergeTable t newKeys)) ↔
      k ∈ storeKeys (.stored t) ∨ k ∈ newKeys := by
  have hcols : (mergeTable t newKeys).cols = t.cols := by
    simp [mergeTable, h]
  have hrows : (mergeTable t newKeys).rows =
      dropDupsFirst (t.rows ++ newKeys.map (newRowAligned t.cols)) := by
    simp [mergeTable, h]
  have hmem : "key" ∈ (mergeTable t newKeys).cols := by rw [hcols]; exact h
  rw [storeKeys_stored_of_mem _ hmem, storeKeys_stored_of_mem _ h, hcols, hrows]
  constructor
  · intro hk
    rcases List.mem_map.mp hk with ⟨r, hr, hkr⟩
    rw [mem_dropDupsFirst] at hr
    rcases List.mem_append.mp hr with h1 | h2
    · exact Or.inl (List.mem_map.mpr ⟨r, h1, hkr⟩)
    · rcases List.mem_map.mp h2 with ⟨k₀, hk₀, hk₀r⟩
      subst hk₀r
      rw [keyCell_newRowAligned t.cols k₀ h] at hkr
      exact Or.inr (hkr ▸ hk₀)
  · intro hk
    rcases hk with h1 | h2
    · rcases List.mem_map.mp h1 with ⟨r, hr, hkr⟩
      refine List.mem_map.mpr ⟨r, ?_, hkr⟩
      rw [mem_dropDupsFirst]
      exact List.mem_append.mpr (Or.inl hr)
    · refine List.mem_map.mpr
        ⟨newRowAligned t.cols k, ?_, keyCell_newRowAligned t.cols k h⟩
      rw [mem_dropDupsFirst]
      exact List.mem_append.mpr (Or.inr (List.mem_map.mpr ⟨k, h2, rfl⟩))

theorem storeKeys_singleKeyTable (ks : List String) :
    storeKeys (.stored ⟨["key"], ks.map (fun k => [some k])⟩) = ks := by
  have hm : "key" ∈ ["key"] := List.mem_singleton.mpr rfl
  rw [storeKeys_stored_of_mem _ hm]
  simp only [List.map_map]
  have hcomp : (keyCell ["key"] ∘ fun k => [some k]) = id := by
    funext k
    simp [keyCell, cellStr, List.indexOf_cons_self]
  rw [hcomp, List.map_id]

theorem storeKeys_update_usable (df : List Item) (s : SeenStore)
    (h : hasUsableKeyCol s = true) (k : String) :
    k ∈ storeKeys (update_seen_keys df s) ↔
      k ∈ storeKeys s ∨ k ∈ df.map itemKey := by
  by_cases hdf : df.isEmpty
  · have hnil : df = [] := List.isEmpty_iff.mp hdf
    subst hnil
    simp [update_seen_keys]
  · cases s with
    | absent =>
      rw [update_seen_keys, if_neg hdf]
      rw [storeKeys_singleKeyTable, mem_dropDupsFirst]
      simp [storeKeys, load_seen_keys]
    | unreadable =>
      rw [update_seen_keys, if_neg hdf]
      rw [storeKeys_mergeTable ⟨["key"], []⟩ _ (by simp) k, mem_dropDupsFirst]
      simp [storeKeys, load_seen_keys, storeKeys_stored_of_mem]
    | stored t =>
      have ht : "key" ∈ t.cols := by simpa [hasUsableKeyCol] using h
      rw [update_seen_keys, if_neg hdf]
      rw [storeKeys_mergeTable t _ ht k, mem_dropDupsFirst]

theorem storeKeys_update_mono (df : List Item) (s : SeenStore) (k : String)
    (hk : k ∈ storeKeys s) : k ∈ storeKeys (update_seen_keys df s) := by
  by_cases hdf : df.isEmpty
  · rw [update_seen_keys, if_pos hdf]; exact hk
  · cases s with
    | absent => simp [storeKeys, load_seen_keys] at hk
    | unreadable => simp [storeKeys, load_seen_keys] at hk
    | stored t =>
      by_cases ht : "key" ∈ t.cols
      · rw [update_seen_keys, if_neg hdf]
        exact (storeKeys_mergeTable t _ ht k).mpr (Or.inl hk)
      · simp [storeKeys, load_seen_keys, ht] at hk

theorem filter_new_items_none (B : List Item) (s : SeenStore)
    (h : load_seen_keys s = none) :
    filter_new_items B s = ((B, true), update_seen_keys B s) := by
  unfold filter_new_items; rw [h]

theorem filter_new_items_some (B : List Item) (seen : List String)
    (s : SeenStore) (h : load_seen_keys s = some seen) (hB : ¬ B.isEmpty) :
    filter_new_items B s =
      ((B.filter (fun it => !(seen.contains (itemKey it))), false),
        update_seen_keys B s) := by
  unfold filter_new_items
  rw [h]
  exact if_neg hB

theorem filter_new_items_some_nil (seen : List String) (s : SeenStore)
    (h : load_seen_keys s = some seen) :
    filter_new_items [] s = (([], false), s) := by
  unfold filter_new_items; rw [h]; rfl

theorem filter_new_items_snd_cases (B : List Item) (s : SeenStore) :
    (filter_new_items B s).2 = update_seen_keys B s ∨
      (filter_new_items B s).2 = s := by
  cases h : load_seen_keys s with
  | none => rw [filter_new_items_none B s h]; left; rfl
  | some seen =>
    by_cases hB : B.isEmpty
    · have : B = [] := List.isEmpty_iff.mp hB
      subst this
      rw [filter_new_items_some_nil seen s h]; right; rfl
    · rw [filter_new_items_some B seen s h hB]; left; rfl

theorem storeKeys_runOp_mono (op : PipelineOp) (s : SeenStore) (k : String)
    (hk : k ∈ storeKeys s) : k ∈ storeKeys (runOp op s) := by
  cases op with
  | classify B =>
    show k ∈ storeKeys ((filter_new_items B s).2)
    rcases filter_new_items_snd_cases B s with h | h <;> rw [h]
    · exact storeKeys_update_mono B s k hk
    · exact hk
  | updateOp B => exact storeKeys_update_mono B s k hk

/-! ### Helper lemmas for idempotence of `update_seen_keys` -/

theorem key_mem_mergeTable_cols (t : Table) (K : List String) :
    "key" ∈ (mergeTable t K).cols := by
  by_cases h : "key" ∈ t.cols <;> simp [mergeTable, h]

theorem mergeTable_rows (t : Table) (K : List String) :
    ∃ old, (mergeTable t K).rows =
      dropDupsFirst (old ++ K.map (newRowAligned (mergeTable t K).cols)) := by
  by_cases h : "key" ∈ t.cols
  · exact ⟨t.rows, by simp [mergeTable, h]⟩
  · exact ⟨t.rows.map (fun r => r ++ [none]), by simp [mergeTable, h]⟩

theorem mem_storeKeys_mergeTable_of_mem (t : Table) (K : List String)
    (k : String) (hk : k ∈ K) :
    k ∈ storeKeys (.stored (mergeTable t K)) := by
  have hm : "key" ∈ (mergeTable t K).cols := key_mem_mergeTable_cols t K
  rw [storeKeys_stored_of_mem _ hm]
  rcases mergeTable_rows t K with ⟨old, hrows⟩
  refine List.mem_map.mpr
    ⟨newRowAligned (mergeTable t K).cols k, ?_, keyCell_newRowAligned _ _ hm⟩
  rw [hrows, mem_dropDupsFirst]
  exact List.mem_append.mpr (Or.inr (List.mem_map.mpr ⟨k, hk, rfl⟩))

theorem newRowAligned_keyOnly (k : String) :
    newRowAligned ["key"] k = [some k] := by
  simp [newRowAligned]

theorem mergeTable_rows_absorb (cols : List String)
    (rows : List (List (Option String))) (K : List String)
    (hm : "key" ∈ cols) :
    mergeTable ⟨cols, dropDupsFirst (rows ++ K.map (newRowAligned cols))⟩ K =
      ⟨cols, dropDupsFirst (rows ++ K.map (newRowAligned cols))⟩ := by
  have hsub : ∀ x ∈ K.map (newRowAligned cols),
      x ∈ dropDupsFirst (rows ++ K.map (newRowAligned cols)) := by
    intro x hx
    rw [mem_dropDupsFirst]
    exact List.mem_append.mpr (Or.inr hx)
  simp only [mergeTable, hm, if_pos]
  rw [dropDupsFirst_append_of_subset _ _ hsub,
    dropDupsFirst_eq_self _ (nodup_dropDupsFirst _)]

theorem mergeTable_idem (t : Table) (K : List String) :
    mergeTable (mergeTable t K) K = mergeTable t K := by
  by_cases h : "key" ∈ t.cols
  · have he : mergeTable t K =
        ⟨t.cols, dropDupsFirst (t.rows ++ K.map (newRowAligned t.cols))⟩ := by
      simp [mergeTable, h]
    rw [he]
    exact mergeTable_rows_absorb t.cols t.rows K h
  · have he : mergeTable t K =
        ⟨t.cols ++ ["key"],
          dropDupsFirst (t.rows.map (fun r => r ++ [none]) ++
            K.map (newRowAligned (t.cols ++ ["key"])))⟩ := by
      simp [mergeTable, h]
    rw [he]
    exact mergeTable_rows_absorb (t.cols ++ ["key"])
      (t.rows.map (fun r => r ++ [none])) K (by simp)

theorem mergeTable_empty_keyTable (K : List String) (hK : K.Nodup) :
    mergeTable ⟨["key"], []⟩ K = ⟨["key"], K.map (fun k => [some k])⟩ := by
  have hminj : Function.Injective (fun k : String => [some k]) := by
    intro a b hab
    simpa using hab
  have hmc : K.map (newRowAligned ["key"]) = K.map (fun k => [some k]) :=
    List.map_congr_left (fun k _ => newRowAligned_keyOnly k)
  simp only [mergeTable, List.mem_singleton, if_pos, List.nil_append]
  rw [hmc, dropDupsFirst_eq_self _ (hK.map hminj)]

theorem update_seen_keys_absent (df : List Item) (hdf : ¬ df.isEmpty = true) :
    update_seen_keys df SeenStore.absent =
      .stored ⟨["key"],
        (dropDupsFirst (df.map itemKey)).map (fun k => [some k])⟩ := by
  rw [update_seen_keys]
  exact if_neg hdf

theorem update_seen_keys_unreadable (df : List Item)
    (hdf : ¬ df.isEmpty = true) :
    update_seen_keys df SeenStore.unreadable =
      .stored (mergeTable ⟨["key"], []⟩ (dropDupsFirst (df.map itemKey))) := by
  rw [update_seen_keys]
  exact if_neg hdf

theorem update_seen_keys_stored (df : List Item) (t : Table)
    (hdf : ¬ df.isEmpty = true) :
    update_seen_keys df (SeenStore.stored t) =
      .stored (mergeTable t (dropDupsFirst (df.map itemKey))) := by
  rw [update_seen_keys]
  exact if_neg hdf

theorem update_seen_keys_idem (df : List Item) (s : SeenStore) :
    update_seen_keys df (update_seen_keys df s) = update_seen_keys df s := by
  by_cases hdf : df.isEmpty
  · simp [update_seen_keys, hdf]
  · cases s with
    | absent =>
      rw [update_seen_keys_absent df hdf,
        ← mergeTable_empty_keyTable _ (nodup_dropDupsFirst _),
        update_seen_keys_stored df _ hdf, mergeTable_idem]
    | unreadable =>
      rw [update_seen_keys_unreadable df hdf,
        update_seen_keys_stored df _ hdf, mergeTable_idem]
    | stored t =>
      rw [update_seen_keys_stored df t hdf,
        update_seen_keys_stored df _ hdf, mergeTable_idem]

/-! ### Helper lemmas for text processing and ranking -/

theorem mem_stripL (x : Char) (l : List Char) (h : x ∈ stripL l) : x ∈ l := by
  unfold stripL at h
  rw [List.mem_reverse] at h
  have h1 := List.dropWhile_sublist (l := (l.dropWhile isWS).reverse) isWS
  have h2 := List.dropWhile_sublist (l := l) isWS
  have hx1 := h1.subset h
  rw [List.mem_reverse] at hx1
  exact h2.subset hx1

theorem firstDigitRun_eq_none (l : List Char)
    (h : ∀ c ∈ l, c.isDigit = false) : firstDigitRun l = none := by
  induction l with
  | nil => rfl
  | cons c cs ih =>
    rw [firstDigitRun, if_neg]
    · exact ih fun d hd => h d (List.mem_cons_of_mem c hd)
    · simp [h c (List.mem_cons_self c cs)]

theorem score_item_le_100 (reply : Option (List Char)) :
    score_item_with_deepseek reply ≤ 100 := by
  cases reply with
  | none => exact Nat.zero_le 100
  | some content =>
    show (match firstDigitRun (stripL content) with
      | none => 0
      | some ds => max 0 (min 100 (digitsVal ds))) ≤ 100
    cases firstDigitRun (stripL content) with
    | none => exact Nat.zero_le 100
    | some ds => exact max_le (Nat.zero_le 100) (min_le_left 100 (digitsVal ds))

theorem length_pandasSortDescBy (key : α → Int) (l : List α) :
    (pandasSortDescBy key l).length = l.length := by
  unfold pandasSortDescBy
  rw [List.length_reverse, List.length_insertionSort, List.length_reverse]

theorem mem_pandasSortDescBy (key : α → Int) (x : α) (l : List α) :
    x ∈ pandasSortDescBy key l ↔ x ∈ l := by
  unfold pandasSortDescBy
  rw [List.mem_reverse, List.mem_insertionSort, List.mem_reverse]

theorem length_filter_ts (l : List Item) :
    (l.filter (fun it => (tsOf it).isSome)).length +
      (l.filter (fun it => (tsOf it).isNone)).length = l.length := by
  induction l with
  | nil => rfl
  | cons a as ih =>
    cases h : tsOf a <;> simp [List.filter_cons, h] <;> omega

theorem length_sortByTsDesc (l : List Item) :
    (sortByTsDesc l).length = l.length := by
  unfold sortByTsDesc
  rw [List.length_append, length_pandasSortDescBy]
  exact length_filter_ts l

/-! ### Claim theorems -/

/-- C6: Score clamping and fail-soft: every score returned by
`score_item_with_deepseek` lies in [0, 100] (scores are naturals here,
so the lower bound is definitional); a failing underlying call
(`reply = none`) yields 0 instead of propagating; a reply containing no
digit yields 0; and otherwise the parsed value is the first run of
decimal digits of the reply, clamped into [0, 100] by
`max(0.0, min(100.0, score))`. -/
theorem C6_score_clamping :
    (∀ reply, score_item_with_deepseek reply ≤ 100) ∧
    score_item_with_deepseek none = 0 ∧
    (∀ content, (∀ c ∈ content, c.isDigit = false) →
      score_item_with_deepseek (some content) = 0) ∧
    (∀ content ds, firstDigitRun (stripL content) = some ds →
      score_item_with_deepseek (some content) =
        max 0 (min 100 (digitsVal ds))) := by
  refine ⟨score_item_le_100, rfl, ?_, ?_⟩
  · intro content h
    have hn : firstDigitRun (stripL content) = none :=
      firstDigitRun_eq_none _ (fun c hc => h c (mem_stripL c _ hc))
    show (match firstDigitRun (stripL content) with
      | none => 0
      | some ds => max 0 (min 100 (digitsVal ds))) = 0
    rw [hn]
  · intro content ds h
    show (match firstDigitRun (stripL content) with
      | none => 0
      | some ds => max 0 (min 100 (digitsVal ds))) = _
    rw [h]

/-- C6 witness: a reply " 150 x" parses to 150 and is clamped to 100;
a digit-free reply scores 0; a failed call scores 0. -/
theorem C6_score_clamping_witness :
    score_item_with_deepseek (some (String.toList " 150 x")) = 100 ∧
    score_item_with_deepseek (some (String.toList "abc")) = 0 ∧
    score_item_with_deepseek none = 0 :=
  ⟨(C6_score_clamping.2.2.2 (String.toList " 150 x") (String.toList "150")
      (by decide)).trans (by decide),
   C6_score_clamping.2.2.1 (String.toList "abc") (by decide),
   C6_score_clamping.2.1⟩

/-- C8 counterexample: with an absent store, `classify([])` enters the
baseline branch (the empty check comes after it in the source) and
returns `([], true)`, not `([], false)` as the claim states for every
store state. -/
theorem C8_counterexample :
    (filter_new_items [] SeenStore.absent).1 ≠ ([], false) := by decide

/-- C8 amended: `classify([])` never touches the store and returns
`([], b)` where `b` is true exactly when `load()` returns `None`
(baseline); the claimed `([], false)` holds only when seen-state is
readable. -/
theorem C8_empty_batch_amended (s : SeenStore) :
    (filter_new_items [] s).1.1 = [] ∧
    (filter_new_items [] s).1.2 = (load_seen_keys s).isNone ∧
    (filter_new_items [] s).2 = s := by
  cases h : load_seen_keys s with
  | none =>
    rw [filter_new_items_none [] s h]
    refine ⟨rfl, rfl, ?_⟩
    simp [update_seen_keys]
  | some seen =>
    rw [filter_new_items_some_nil seen s h]
    exact ⟨rfl, rfl, rfl⟩

/-- C9 counterexample: the source rebinds `text` to its stripped form
before the call, so a failing translation of " a " returns "a", not the
original input " a " unchanged. -/
theorem C9_counterexample :
    translate_text_to_zh none (String.toList " a ") = String.toList "a" ∧
    String.toList "a" ≠ String.toList " a " := by decide

/-- C9 amended: on failure `translate` returns the whitespace-stripped
input; that result is non-empty whenever the stripped input is
non-empty; and an input that strips to empty (empty or
whitespace-only) yields the empty result for every reply, without any
call. -/
theorem C9_translate_failsoft_amended (text : List Char) :
    translate_text_to_zh none text = stripL text ∧
    (stripL text ≠ [] → translate_text_to_zh none text ≠ []) ∧
    (stripL text = [] → ∀ reply, translate_text_to_zh reply text = []) := by
  have hred : ∀ reply : Option (List Char), translate_text_to_zh reply text =
      if stripL text = [] then []
      else match reply with
        | none => stripL text
        | some r => stripL r :=
    fun reply => rfl
  by_cases h : stripL text = []
  · refine ⟨?_, fun hne => absurd h hne, fun _ reply => ?_⟩
    · rw [hred none, if_pos h, h]
    · rw [hred reply, if_pos h]
  · refine ⟨?_, fun _ => ?_, fun he => absurd he h⟩
    · rw [hred none, if_neg h]
    · rw [hred none, if_neg h]
      exact h

/-- C9 witness: the amended fail-soft law evaluated at " a ". -/
theorem C9_translate_failsoft_amended_witness :
    translate_text_to_zh none (String.toList " a ") =
      stripL (String.toList " a ") ∧
    translate_text_to_zh none (String.toList " a ") ≠ [] :=
  ⟨(C9_translate_failsoft_amended (String.toList " a ")).1,
   (C9_translate_failsoft_amended (String.toList " a ")).2.1 (by decide)⟩

/-- C10: an empty update returns before touching the file (only
`os.makedirs` runs), so a baseline run on an empty batch persists
nothing, the store stays absent, and the next non-empty run is again a
baseline run (`is_baseline = true`). -/
theorem C10_empty_update_noop :
    (∀ s, update_seen_keys [] s = s) ∧
    (filter_new_items [] SeenStore.absent).2 = SeenStore.absent ∧
    (∀ B, (filter_new_items B SeenStore.absent).1.2 = true) := by
  have hupd : ∀ s, update_seen_keys [] s = s := by
    intro s
    simp [update_seen_keys]
  refine ⟨hupd, ?_, fun B => ?_⟩
  · rw [filter_new_items_none [] SeenStore.absent rfl, hupd]
  · rw [filter_new_items_none B SeenStore.absent rfl]

/-- Merged tables always carry deduplicated rows. -/
theorem nodup_mergeTable_rows (t : Table) (K : List String) :
    (mergeTable t K).rows.Nodup := by
  rcases mergeTable_rows t K with ⟨old, h⟩
  rw [h]
  exact nodup_dropDupsFirst _

/-- C1 counterexample: a readable prior file lacking the `key` column
makes `load()` return None (baseline), but `update_seen_keys`
concatenates its old row into the new store, whose key column then also
holds "nan": the persisted store does not contain exactly the keys of
the batch. -/
theorem C1_counterexample :
    load_seen_keys (SeenStore.stored badTable) = none ∧
    "nan" ∈ storeKeys
      ((filter_new_items [itemA1] (SeenStore.stored badTable)).2) ∧
    "nan" ∉ [itemA1].map itemKey := by decide

/-- C1 amended: when `load()` returns None, `classify(B)` returns
`(B, true)` and afterwards the persisted store contains every identity
key of B; it contains exactly the keys of B whenever the prior state
was absent or unreadable (a readable-but-malformed prior table can
additionally contribute a "nan" key). -/
theorem C1_baseline_amended (B : List Item) (s : SeenStore)
    (h : load_seen_keys s = none) :
    (filter_new_items B s).1 = (B, true) ∧
    (∀ k ∈ B.map itemKey, k ∈ storeKeys ((filter_new_items B s).2)) ∧
    ((s = SeenStore.absent ∨ s = SeenStore.unreadable) →
      ∀ k, k ∈ storeKeys ((filter_new_items B s).2) ↔ k ∈ B.map itemKey) := by
  have h1 : (filter_new_items B s).1 = (B, true) := by
    rw [filter_new_items_none B s h]
  have h2 : (filter_new_items B s).2 = update_seen_keys B s := by
    rw [filter_new_items_none B s h]
  refine ⟨h1, ?_, ?_⟩
  · intro k hk
    rw [h2]
    by_cases hB : B.isEmpty
    · rw [List.isEmpty_iff.mp hB] at hk
      simp at hk
    · cases s with
      | absent =>
        rw [update_seen_keys_absent B hB, storeKeys_singleKeyTable,
          mem_dropDupsFirst]
        exact hk
      | unreadable =>
        rw [update_seen_keys_unreadable B hB]
        exact mem_storeKeys_mergeTable_of_mem _ _ k
          ((mem_dropDupsFirst k _).mpr hk)
      | stored t =>
        rw [update_seen_keys_stored B t hB]
        exact mem_storeKeys_mergeTable_of_mem _ _ k
          ((mem_dropDupsFirst k _).mpr hk)
  · rintro (rfl | rfl) k <;> rw [h2]
    · rw [storeKeys_update_usable B SeenStore.absent (by decide) k]
      simp [storeKeys, load_seen_keys]
    · rw [storeKeys_update_usable B SeenStore.unreadable (by decide) k]
      simp [storeKeys, load_seen_keys]

/-- C1 witness: baseline on the absent store with one item. -/
theorem C1_baseline_amended_witness :
    (filter_new_items [itemA1] SeenStore.absent).1 = ([itemA1], true) ∧
    ("A||u1" ∈ storeKeys ((filter_new_items [itemA1] SeenStore.absent).2) ↔
      "A||u1" ∈ [itemA1].map itemKey) :=
  ⟨(C1_baseline_amended [itemA1] SeenStore.absent rfl).1,
   (C1_baseline_amended [itemA1] SeenStore.absent rfl).2.2 (Or.inl rfl)
     "A||u1"⟩

/-- C2: with readable seen-state, `classify(B)` returns exactly the
order-preserving subsequence of B whose identity key (feed_id, two
pipes, link) is absent from the loaded set, flags `is_baseline = false`,
and afterwards the store holds the union of its prior keys with the
keys of all items of B, not just the new ones. -/
theorem C2_novelty_correctness (B : List Item) (seen : List String)
    (s : SeenStore) (h : load_seen_keys s = some seen) :
    (filter_new_items B s).1 =
      (B.filter (fun it => !(seen.contains (itemKey it))), false) ∧
    (∀ it : Item, itemKey it = it.feed_id ++ "||" ++ it.link) ∧
    (∀ k, k ∈ storeKeys ((filter_new_items B s).2) ↔
      k ∈ storeKeys s ∨ k ∈ B.map itemKey) := by
  have husable : hasUsableKeyCol s = true := by
    cases s with
    | absent => simp [load_seen_keys] at h
    | unreadable => simp [load_seen_keys] at h
    | stored t =>
      by_cases ht : "key" ∈ t.cols
      · simp [hasUsableKeyCol, ht]
      · simp [load_seen_keys, ht] at h
  by_cases hB : B.isEmpty
  · have hBnil : B = [] := List.isEmpty_iff.mp hB
    subst hBnil
    rw [filter_new_items_some_nil seen s h]
    exact ⟨rfl, fun it => rfl, fun k => by simp⟩
  · have h1 : (filter_new_items B s).1 =
        (B.filter (fun it => !(seen.contains (itemKey it))), false) := by
      rw [filter_new_items_some B seen s h hB]
    have h2 : (filter_new_items B s).2 = update_seen_keys B s := by
      rw [filter_new_items_some B seen s h hB]
    refine ⟨h1, fun it => rfl, fun k => ?_⟩
    rw [h2]
    exact storeKeys_update_usable B s husable k

/-- C2 witness: the spec scenario — store holding "A||u1", batch of
itemA1 and itemA2: only itemA2 survives the filter, the flag is false,
and the union law holds for the key of itemA2. -/
theorem C2_novelty_correctness_witness :
    (filter_new_items [itemA1, itemA2] (SeenStore.stored seenA1Table)).1 =
      ([itemA1, itemA2].filter
        (fun it => !((["A||u1"]).contains (itemKey it))), false) ∧
    ("A||u2" ∈ storeKeys
        ((filter_new_items [itemA1, itemA2]
          (SeenStore.stored seenA1Table)).2) ↔
      "A||u2" ∈ storeKeys (SeenStore.stored seenA1Table) ∨
        "A||u2" ∈ [itemA1, itemA2].map itemKey) :=
  ⟨(C2_novelty_correctness [itemA1, itemA2] ["A||u1"] _ (by decide)).1,
   (C2_novelty_correctness [itemA1, itemA2] ["A||u1"] _ (by decide)).2.2
     "A||u2"⟩

/-- C3 counterexample: for the readable prior table lacking the `key`
column, a single update also persists a "nan" key coming from the old
row, so the persisted key set is not the union of the prior keys with
the given keys. -/
theorem C3_counterexample :
    "nan" ∈
      storeKeys (update_seen_keys [itemA1] (SeenStore.stored badTable)) ∧
    "nan" ∉ storeKeys (SeenStore.stored badTable) ∧
    "nan" ∉ [itemA1].map itemKey := by decide

/-- C3 amended: `update` is idempotent for every prior state (the whole
persisted table is unchanged by a repeated merge of the same keys); the
merge-is-set-union law holds for every prior state except a readable
table lacking the `key` column; and a non-empty update always writes
deduplicated rows. -/
theorem C3_idempotent_union_amended (df : List Item) (s : SeenStore) :
    update_seen_keys df (update_seen_keys df s) = update_seen_keys df s ∧
    (hasUsableKeyCol s = true →
      ∀ k, k ∈ storeKeys (update_seen_keys df s) ↔
        k ∈ storeKeys s ∨ k ∈ df.map itemKey) ∧
    (¬ df.isEmpty = true → ∀ t, update_seen_keys df s = .stored t →
      t.rows.Nodup) := by
  refine ⟨update_seen_keys_idem df s,
    fun hu k => storeKeys_update_usable df s hu k, fun hdf t ht => ?_⟩
  cases s with
  | absent =>
    rw [update_seen_keys_absent df hdf] at ht
    injection ht with ht'
    subst ht'
    exact (nodup_dropDupsFirst _).map (fun a b hab => by simpa using hab)
  | unreadable =>
    rw [update_seen_keys_unreadable df hdf] at ht
    injection ht with ht'
    subst ht'
    exact nodup_mergeTable_rows _ _
  | stored t0 =>
    rw [update_seen_keys_stored df t0 hdf] at ht
    injection ht with ht'
    subst ht'
    exact nodup_mergeTable_rows _ _

/-- C3 witness: idempotence and the union law at the absent store with
one item. -/
theorem C3_idempotent_union_amended_witness :
    update_seen_keys [itemA1] (update_seen_keys [itemA1] SeenStore.absent) =
      update_seen_keys [itemA1] SeenStore.absent ∧
    ("A||u1" ∈ storeKeys (update_seen_keys [itemA1] SeenStore.absent) ↔
      "A||u1" ∈ storeKeys SeenStore.absent ∨
        "A||u1" ∈ [itemA1].map itemKey) :=
  ⟨(C3_idempotent_union_amended [itemA1] SeenStore.absent).1,
   (C3_idempotent_union_amended [itemA1] SeenStore.absent).2.1 (by decide)
     "A||u1"⟩

/-- C4: append-only invariant: across any sequence of classify/update
operations of the pipeline, every key readable from the store stays
readable — no operation removes a persisted key. -/
theorem C4_append_only (ops : List PipelineOp) :
    ∀ (s : SeenStore) (k : String), k ∈ storeKeys s →
      k ∈ storeKeys (runOps ops s) := by
  induction ops with
  | nil => exact fun s k hk => hk
  | cons op rest ih =>
    exact fun s k hk => ih (runOp op s) k (storeKeys_runOp_mono op s k hk)

/-- C4 witness: the key "A||u1" survives a classify run on a fresh
batch. -/
theorem C4_append_only_witness :
    "A||u1" ∈ storeKeys
      (runOps [PipelineOp.classify [itemA2]]
        (SeenStore.stored seenA1Table)) :=
  C4_append_only [PipelineOp.classify [itemA2]]
    (SeenStore.stored seenA1Table) "A||u1" (by decide)

/-- C5: truncation bound: with personalization enabled, a profile that
is non-empty after stripping, an available oracle client and a
non-empty new-item batch, the ranking returns a list of length exactly
`min top_n (min max_candidates (number of new items))`, and every
element's score lies in [0, 100] (scores are naturals, so the lower
bound is definitional). -/
theorem C5_truncation_bound (clientAvailable : Bool)
    (reply : Item → Option (List Char)) (recent : List Item) (st : Settings)
    (h1 : st.enable = true) (h2 : stripL st.user_profile ≠ [])
    (h3 : clientAvailable = true) (h4 : recent ≠ []) :
    ∃ l, personalized_recommendations clientAvailable reply recent st =
        some l ∧
      l.length = min st.top_n (min st.max_candidates recent.length) ∧
      ∀ p ∈ l, p.2 ≤ 100 := by
  have g1 : ¬ (st.enable = false) := by simp [h1]
  have g3 : ¬ (clientAvailable = false) := by simp [h3]
  have g4 : ¬ (recent.isEmpty = true) := fun hc => h4 (List.isEmpty_iff.mp hc)
  unfold personalized_recommendations
  rw [if_neg g1, if_neg h2, if_neg g3, if_neg g4]
  refine ⟨_, rfl, ?_, ?_⟩
  · rw [List.length_take, length_pandasSortDescBy, List.length_map,
      List.length_take, length_sortByTsDesc]
  · intro p hp
    have hp1 : p ∈ pandasSortDescBy (fun p => (p.2 : Int))
        (((sortByTsDesc recent).take st.max_candidates).map
          (fun it => (it, score_item_with_deepseek (reply it)))) :=
      (List.take_sublist _ _).subset hp
    rw [mem_pandasSortDescBy] at hp1
    rcases List.mem_map.mp hp1 with ⟨it, _, hpe⟩
    rw [← hpe]
    exact score_item_le_100 (reply it)

/-- C5 witness: the spec scenario — `max_candidates = 1`, `top_n = 5`,
two new items: exactly one result. -/
theorem C5_truncation_bound_witness :
    ∃ l, personalized_recommendations true
        (fun _ => some (String.toList "50")) [itemA1, itemA2]
        ⟨true, String.toList "p", 1, 5, 20⟩ = some l ∧
      l.length = min 5 (min 1 2) ∧
      ∀ p ∈ l, p.2 ≤ 100 :=
  C5_truncation_bound true (fun _ => some (String.toList "50"))
    [itemA1, itemA2] ⟨true, String.toList "p", 1, 5, 20⟩ rfl (by decide) rfl
    (by decide)

end AcademicWatcher
